import Mathlib

/-!
Verification of the AgriBot push-to-talk voice assistant (`main.py`).

The development shallowly embeds the code's data model and operations:

* the sanitization step of `AgriBot.ask` (main.py lines 133-137), modelled as
  pure functions over `List Char` mirroring the two Python `re.sub` calls and
  the `.strip()` calls;
* `AgriTTS` (lines 75-109), `VoiceRecorder` (lines 156-213) and
  `AgriBot.ask` (lines 123-143) as pure state-passing functions, with the
  external services (translator, LM, gTTS, microphone) given as oracles;
* the push-to-talk concurrency core (`KeyHandler`, `AgriBot.cancel_processing`
  and the asyncio task running `AgriBot.ask`) as an explicit small-step system
  whose atomic actions are the key-event handlers, the pre-task part of
  `KeyHandler._process_audio`, and the resume points of the asyncio task
  (cancellation of a task is a flag that takes effect at the task's next
  resume point, as in asyncio).
-/

set_option maxRecDepth 4000

/-! ### Python-style whitespace and the sanitization step (main.py lines 133-137)

`AgriBot.ask` post-processes the model answer with

  `re.sub(r'<think>.*?</think>', '', en_ai_result, flags=re.DOTALL).strip()`

followed by

  `re.sub(r'\n{2,}', '\n', cleaned_en_ai_result).strip()`.

`re.sub` with a non-greedy `.*?` deletes, scanning left to right, each
`<think>` occurrence together with everything up to the *nearest* following
`</think>`; an opening tag with no closing tag after it is left in place.
`str.strip()` removes leading and trailing ASCII whitespace.
-/

/-- Python `str.strip()` default whitespace characters (ASCII subset). -/
def isPySpace (c : Char) : Bool :=
  c == ' ' || c == '\t' || c == '\n' || c == '\r' || c == '\x0b' || c == '\x0c'

/-- Python `str.strip()`: drop leading and trailing whitespace. -/
def pyStrip (l : List Char) : List Char :=
  (l.dropWhile isPySpace).rdropWhile isPySpace

/-- The literal open marker `<think>` of the regex in main.py line 135. -/
def openTag : List Char := ['<', 't', 'h', 'i', 'n', 'k', '>']

/-- The literal close marker `</think>` of the regex in main.py line 135. -/
def closeTag : List Char := ['<', '/', 't', 'h', 'i', 'n', 'k', '>']

/-- Boolean prefix test used to locate the regex's literal markers. -/
def startsWithL : List Char → List Char → Bool
  | [], _ => true
  | _ :: _, [] => false
  | p :: ps, c :: cs => p == c && startsWithL ps cs

/-- Scan for the first occurrence of `</think>` and return the remainder of
the list after it (the position `re.sub` continues from), or `none` when no
close marker occurs. -/
def dropThroughClose : List Char → Option (List Char)
  | [] => none
  | c :: rest =>
    if startsWithL closeTag (c :: rest) then some ((c :: rest).drop 8)
    else dropThroughClose rest

/-- Fueled worker for `re.sub(r'<think>.*?</think>', '', s, flags=re.DOTALL)`:
emit characters until an open marker with a later close marker is found, then
drop through the close marker and continue after it (as `re.sub` does).  The
fuel only serves structural recursion; `length l` fuel is always enough. -/
def removeThinkF : Nat → List Char → List Char
  | 0, l => l
  | _ + 1, [] => []
  | fuel + 1, c :: rest =>
    if startsWithL openTag (c :: rest) then
      match dropThroughClose (rest.drop 6) with
      | some suffix => removeThinkF fuel suffix
      | none => c :: removeThinkF fuel rest
    else c :: removeThinkF fuel rest

/-- `re.sub(r'<think>.*?</think>', '', s, flags=re.DOTALL)` (main.py line 135). -/
def removeThink (l : List Char) : List Char := removeThinkF l.length l

/-- Fueled worker for `re.sub(r'\n{2,}', '\n', s)`: every maximal run of two
or more newline characters is replaced by a single newline. -/
def collapseNewlinesF : Nat → List Char → List Char
  | 0, l => l
  | _ + 1, [] => []
  | fuel + 1, c :: rest =>
    if c = '\n' then
      '\n' :: collapseNewlinesF fuel (rest.dropWhile (fun x => x == '\n'))
    else c :: collapseNewlinesF fuel rest

/-- `re.sub(r'\n{2,}', '\n', s)` (main.py line 137). -/
def collapseNewlines (l : List Char) : List Char := collapseNewlinesF l.length l

/-- The complete sanitization pipeline of main.py lines 133-137: remove
`<think>` spans, strip, collapse newline runs, strip. -/
def sanitize (l : List Char) : List Char :=
  pyStrip (collapseNewlines (pyStrip (removeThink l)))

/-- Detects two consecutive newline characters anywhere in a list. -/
def hasDoubleNL : List Char → Bool
  | a :: b :: t => (a == '\n' && b == '\n') || hasDoubleNL (b :: t)
  | _ => false

/-! ### AgriTTS (main.py lines 75-109)

`speak` runs in a thread: it builds a `vlc.MediaPlayer` and polls until the
player ends or `is_speaking` is cleared.  `stop` (line 105) stops the player
if one is active and clears the flag.  `start_speaking` (line 98) stops any
previous session and starts a fresh one. -/

/-- The `vlc.MediaPlayer` handle: all the core reads from it is whether it was
stopped. -/
structure Player where
  stopped : Bool
deriving DecidableEq

/-- State of `AgriTTS`: the `is_speaking` flag and the current player. -/
structure AgriTTS where
  is_speaking : Bool
  player : Option Player
deriving DecidableEq

/-- `AgriTTS.stop` (main.py lines 105-109): `if self.is_speaking and
self.player: self.player.stop()` then `self.is_speaking = False`. -/
def AgriTTS.stop (t : AgriTTS) : AgriTTS :=
  let t1 :=
    if t.is_speaking && t.player.isSome then
      { t with player := t.player.map (fun p => { p with stopped := true }) }
    else t
  { t1 with is_speaking := false }

/-- `AgriTTS.start_speaking` (main.py lines 98-103): stop the previous
session, then the spawned `speak` thread sets `is_speaking` and installs a
fresh player. -/
def AgriTTS.start_speaking (t : AgriTTS) : AgriTTS :=
  let t1 := t.stop
  { t1 with is_speaking := true, player := some ⟨false⟩ }

/-! ### VoiceRecorder (main.py lines 156-213) -/

/-- `sr.AudioData(audio_data, self.sample_rate, self.sample_width)`: the raw
bytes (modelled as `List Nat`) plus the sampling metadata. -/
structure AudioData where
  frame_data : List Nat
  sample_rate : Option Nat
  sample_width : Option Nat
deriving DecidableEq

/-- The recorder's mutable state (main.py lines 158-165); `frames` is the
list of captured chunks, each a byte string. -/
structure VoiceRecorder where
  recording : Bool
  frames : List (List Nat)
  sample_rate : Option Nat
  sample_width : Option Nat
deriving DecidableEq

/-- The freshly constructed recorder (main.py lines 158-165). -/
def initRecorder : VoiceRecorder := ⟨false, [], none, none⟩

namespace VoiceRecorder

/-- `VoiceRecorder.start_recording` (main.py lines 167-187).  `device`
abstracts `sr.Microphone()` together with the ambient-noise calibration:
`some (rate, width)` when the device opens, `none` when any of those lines
raises.  The code returns silently when already recording; on success it sets
the sampling metadata and spawns the capture thread; on failure the
`except` block prints and resets `recording` to `False`. -/
def start_recording (device : Option (Nat × Nat)) (s : VoiceRecorder) : VoiceRecorder :=
  if s.recording then s
  else
    let s1 := { s with recording := true, frames := [] }
    match device with
    | some (rate, width) =>
      { s1 with sample_rate := some rate, sample_width := some width }
    | none => { s1 with recording := false }

/-- `VoiceRecorder.stop_recording` (main.py lines 203-205). -/
def stop_recording (s : VoiceRecorder) : VoiceRecorder := { s with recording := false }

/-- One iteration of the capture loop's append (main.py lines 195-196),
guarded by the loop condition `while self.recording`. -/
def record_chunk (s : VoiceRecorder) (b : List Nat) : VoiceRecorder :=
  if s.recording then { s with frames := s.frames ++ [b] } else s

/-- Appending a whole sequence of captured chunks in order. -/
def record_chunks (s : VoiceRecorder) (cs : List (List Nat)) : VoiceRecorder :=
  cs.foldl record_chunk s

/-- `VoiceRecorder.get_audio_data` (main.py lines 207-213): `None` when no
frames, otherwise the in-order concatenation of the chunks.  The method reads
`self.frames` and returns; it performs no mutation. -/
def get_audio_data (s : VoiceRecorder) : Option AudioData :=
  if s.frames = [] then none
  else some ⟨s.frames.flatten, s.sample_rate, s.sample_width⟩

/-- The full effect of a `get_audio_data` call on the object: the returned
value together with the (unchanged) recorder state. -/
def collect_code (s : VoiceRecorder) : Option AudioData × VoiceRecorder :=
  (get_audio_data s, s)

/-- Spec-comparison definition, following the spec's words for `collect()`:
"returns `None` if no chunks were captured since the last `start()`; otherwise
concatenates chunks in capture order into one AudioBlob and clears the
session". -/
def collectSpec (s : VoiceRecorder) : Option AudioData × VoiceRecorder :=
  if s.frames = [] then (none, s)
  else (some ⟨s.frames.flatten, s.sample_rate, s.sample_width⟩, { s with frames := [] })

/-- Error taxonomy named by the spec for `start()`. -/
inductive StartErr
  | alreadyRecording
  | deviceError
deriving DecidableEq

/-- Spec-comparison definition, following the spec's words for `start()`:
"fails with `AlreadyRecording` if a CaptureSession is already Recording";
"Device-open failure surfaces as `DeviceError` and leaves state Idle". -/
def startSpec (device : Option (Nat × Nat)) (s : VoiceRecorder) :
    Except StartErr VoiceRecorder :=
  if s.recording then .error .alreadyRecording
  else
    match device with
    | some (rate, width) =>
      .ok { s with recording := true, frames := [],
                   sample_rate := some rate, sample_width := some width }
    | none => .error .deviceError

/-- External events driving `VoiceRecorder._record_audio` (main.py lines
189-201): a chunk read succeeds, a chunk read (or the `with self.mic` entry)
raises, or another thread calls `stop_recording`. -/
inductive RecEvent
  | chunk (b : List Nat)
  | chunkErr
  | stopReq
deriving DecidableEq

/-- `VoiceRecorder._record_audio` (main.py lines 189-201): loop while
`self.recording`, appending chunks; any exception is caught and the
`finally` clause sets `recording := False`.  Returns `some` final state when
the loop has exited within the given event list, `none` while it is still
running (events exhausted with `recording` still set). -/
def record_audio : VoiceRecorder → List RecEvent → Option VoiceRecorder
  | s, [] => if s.recording then none else some s
  | s, e :: rest =>
    if s.recording then
      match e with
      | .chunk b => record_audio { s with frames := s.frames ++ [b] } rest
      | .chunkErr => some { s with recording := false }
      | .stopReq => record_audio { s with recording := false } rest
    else some s

end VoiceRecorder

/-! ### AgriBot.ask as a sequential function (main.py lines 123-143)

The pipeline body: translate BN→EN, query the model, sanitize, translate
EN→BN, hand the result to `tts.start_speaking`.  The external services are
oracles returning `Except` (network errors and `asyncio.CancelledError`
raised at the `await`s are both error outcomes); the `finally` clause clears
`is_processing` on every path. -/

/-- The `AgriBot` state visible to `ask`: the `is_processing` flag and the
TTS component. -/
structure AgriBotState where
  is_processing : Bool
  tts : AgriTTS
deriving DecidableEq

/-- `self.is_processing = True`, the first line of `ask` (main.py line 130). -/
def ask_entry (b : AgriBotState) : AgriBotState := { b with is_processing := true }

/-- `AgriBot.ask` (main.py lines 123-143) with the translator and the model
as oracles.  Every error path, like the success path, runs the `finally`
clause clearing `is_processing`; on success `tts.start_speaking` is called. -/
def AgriBotState.ask (translate1 : String → Except String String)
    (infer : String → Except String String)
    (translate2 : String → Except String String)
    (prompt : String) (b : AgriBotState) : AgriBotState × Except String String :=
  let b1 := ask_entry b
  match translate1 prompt with
  | .error e => ({ b1 with is_processing := false }, .error e)
  | .ok en_prompt =>
    match infer en_prompt with
    | .error e => ({ b1 with is_processing := false }, .error e)
    | .ok en_ai_result =>
      match translate2 (String.mk (sanitize en_ai_result.data)) with
      | .error e => ({ b1 with is_processing := false }, .error e)
      | .ok bn_ai_result =>
        ({ b1 with is_processing := false, tts := b1.tts.start_speaking },
         .ok bn_ai_result)

/-! ### The push-to-talk concurrency core as a small-step system

Threads involved (main.py):

* the pynput listener thread running `KeyHandler.on_press` / `on_release`
  (lines 227-245);
* one `_process_audio` thread per key release (lines 247-269), which first
  transcribes (line 255, *before* any task exists), then creates the asyncio
  task running `AgriBot.ask` and assigns it to `bot.processing_task`
  (line 260), then drives that task's event loop;
* the asyncio task itself, which executes `AgriBot.ask` in segments
  separated by its suspension points (the two `await translator.translate`
  calls); `Task.cancel` merely sets a flag that takes effect at the task's
  next resume point.

Atomic actions of the model:

* `down` / `up` — the key-event handlers (the listener thread);
* `mkTask tid` — a pending `_process_audio` thread finishes transcription
  and creates its task, overwriting `bot.processing_task` (line 260);
* `adv r` — task `r`'s event loop resumes it once: delivery of a pending
  cancellation is checked at the resume point, then the next code segment of
  `ask` runs.

Segment boundaries of the task running `ask` (lines 130-143):

* `created`: resuming starts the first segment — `is_processing := True`,
  the BN→EN translation is issued, and the task suspends on its await;
* `awaitT1`: the first translation completed; resuming runs the LM inference
  (a synchronous call) to completion;
* `midSeg1`: the straight-line point between the inference's return and the
  issuing of the EN→BN translation — there is no cancellation check here;
* `awaitT2`: the second translation completed; resuming runs
  `tts.start_speaking(bn_ai_result)` and returns.
-/

/-- Position of the asyncio task inside `AgriBot.ask`. -/
inductive TPos
  | created
  | awaitT1
  | midSeg1
  | awaitT2
deriving DecidableEq

/-- Terminal/running status of the asyncio task. -/
inductive TStatus
  | running
  | cancelled
  | completed
deriving DecidableEq

/-- One asyncio task running `AgriBot.ask`: its position, the pending
`Task.cancel` flag, and its status. -/
structure PTask where
  pos : TPos
  mustCancel : Bool
  status : TStatus
deriving DecidableEq

/-- External-call stages of the pipeline, as logged when each begins. -/
inductive StageCall
  | t1Call
  | inferCall
  | t2Call
deriving DecidableEq

/-- The whole-process state: the `KeyHandler` flags, the recorder's
`recording` flag, call counters for `start_recording` and
`cancel_processing`, the `_process_audio` threads that have not yet created
their task, the tasks (index = run id, in creation order),
`bot.processing_task`, `bot.is_processing`, the TTS `is_speaking` flag, the
log of texts handed to `tts.start_speaking` (identified by run id), and the
log of started external-call stages. -/
structure Sys where
  ctrl_pressed : Bool
  recording : Bool
  startCalls : Nat
  cancelCalls : Nat
  pendingThreads : List Nat
  nextThread : Nat
  tasks : List PTask
  processingTask : Option Nat
  is_processing : Bool
  speaking : Bool
  spoken : List Nat
  calls : List (Nat × StageCall)
deriving DecidableEq

/-- The initial state after `KeyHandler.__init__` / `AgriBot.__init__`. -/
def initSys : Sys :=
  { ctrl_pressed := false, recording := false, startCalls := 0, cancelCalls := 0,
    pendingThreads := [], nextThread := 0, tasks := [], processingTask := none,
    is_processing := false, speaking := false, spoken := [], calls := [] }

/-- `AgriBot.cancel_processing` (main.py lines 149-154): `stop_speaking()`
always; then, if `processing_task` is set, `processing_task.cancel()` (the
flag that is delivered at the task's next resume point) and
`is_processing = False`. -/
def cancel_task (s : Sys) (r : Nat) : Sys :=
  match s.tasks[r]? with
  | none => { s with speaking := false, is_processing := false }
  | some t =>
    { s with speaking := false,
             tasks := s.tasks.set r { t with mustCancel := true },
             is_processing := false }

/-- Dispatch on `self.processing_task` (see the doc comment above). -/
def cancel_processing (s : Sys) : Sys :=
  match s.processingTask with
  | none => { s with speaking := false }
  | some r => cancel_task s r

/-- Scheduler actions: a key press or release edge, a pending
`_process_audio` thread creating its task, or one resume of task `r`. -/
inductive Act
  | down
  | up
  | mkTask (tid : Nat)
  | adv (r : Nat)
deriving DecidableEq

/-- One resume of task `r` by its event loop (the segments of `AgriBot.ask`,
main.py lines 130-143).  A pending cancel is delivered at the resume point:
the task becomes `cancelled` and — if the coroutine had started — the
`finally` clause clears `is_processing`.  `midSeg1` is straight-line code
with no cancellation check. -/
def advRun (s : Sys) (r : Nat) (t : PTask) : Sys :=
  match t.status with
  | .cancelled => s
  | .completed => s
  | .running =>
    match t.pos with
    | .created =>
      if t.mustCancel then
        { s with tasks := s.tasks.set r { t with status := .cancelled } }
      else
        { s with tasks := s.tasks.set r { t with pos := .awaitT1 },
                 is_processing := true,
                 calls := s.calls ++ [(r, .t1Call)] }
    | .awaitT1 =>
      if t.mustCancel then
        { s with tasks := s.tasks.set r { t with status := .cancelled },
                 is_processing := false }
      else
        { s with tasks := s.tasks.set r { t with pos := .midSeg1 },
                 calls := s.calls ++ [(r, .inferCall)] }
    | .midSeg1 =>
      { s with tasks := s.tasks.set r { t with pos := .awaitT2 },
               calls := s.calls ++ [(r, .t2Call)] }
    | .awaitT2 =>
      if t.mustCancel then
        { s with tasks := s.tasks.set r { t with status := .cancelled },
                 is_processing := false }
      else
        { s with tasks := s.tasks.set r { t with status := .completed },
                 is_processing := false,
                 speaking := true,
                 spoken := s.spoken ++ [r] }

/-- One resume of task `r` by its event loop: look the task up, then apply
the segment dispatch `advRun`. -/
def advTask (s : Sys) (r : Nat) : Sys :=
  match s.tasks[r]? with
  | none => s
  | some t => advRun s r t

/-- The `recorder.start_recording()` call made by `on_press` (main.py line
234): the call is counted; the recorder's own guard makes it a no-op when
already recording (the device is assumed to open). -/
def startRec (s : Sys) : Sys :=
  if s.recording then { s with startCalls := s.startCalls + 1 }
  else { s with startCalls := s.startCalls + 1, recording := true }

/-- One atomic action of the system.

`down` is `KeyHandler.on_press` (main.py lines 227-234): on a fresh press it
sets `ctrl_pressed`, calls `bot.cancel_processing()` and then
`recorder.start_recording()` (whose own guard makes it a no-op when already
recording; the device is assumed to open).  A repeat press is ignored.

`up` is `KeyHandler.on_release` (lines 240-245): on a release with
`ctrl_pressed` set it clears the flag, stops the recorder, and spawns a
`_process_audio` thread.

`mkTask tid` is the moment thread `tid` finishes the transcription of line
255 and runs line 260: a fresh task is appended and registered in
`bot.processing_task`.  (A thread whose recording was empty or whose
transcription failed simply never takes this action.) -/
def step (s : Sys) : Act → Sys
  | .down =>
    if s.ctrl_pressed then s
    else
      startRec (cancel_processing
        { s with ctrl_pressed := true, cancelCalls := s.cancelCalls + 1 })
  | .up =>
    if s.ctrl_pressed then
      { s with ctrl_pressed := false, recording := false,
               pendingThreads := s.pendingThreads ++ [s.nextThread],
               nextThread := s.nextThread + 1 }
    else s
  | .mkTask tid =>
    if tid ∈ s.pendingThreads then
      { s with pendingThreads := s.pendingThreads.erase tid,
               tasks := s.tasks ++ [⟨.created, false, .running⟩],
               processingTask := some s.tasks.length }
    else s
  | .adv r => advTask s r

/-- Run a list of scheduler actions from a state. -/
def runFrom (s : Sys) (acts : List Act) : Sys := acts.foldl step s

/-- Run a list of scheduler actions from the initial state. -/
def runSys (acts : List Act) : Sys := runFrom initSys acts

/-! ### Lemmas about the sanitization functions -/

theorem length_dropWhile_le' (p : Char → Bool) (l : List Char) :
    (l.dropWhile p).length ≤ l.length := by
  induction l with
  | nil => simp
  | cons c rest ih =>
    by_cases h : p c
    · simpa [List.dropWhile, h] using Nat.le_succ_of_le ih
    · simp [List.dropWhile, h]

theorem length_drop_le' (n : Nat) (l : List Char) : (l.drop n).length ≤ l.length := by
  simp [List.length_drop]

theorem dropThroughClose_length_le :
    ∀ (l s : List Char), dropThroughClose l = some s → s.length ≤ l.length := by
  intro l
  induction l with
  | nil => intro s h; simp [dropThroughClose] at h
  | cons c rest ih =>
    intro s h
    by_cases hb : startsWithL closeTag (c :: rest) = true
    · simp [dropThroughClose, hb] at h
      subst h
      simp only [List.length_drop, List.length_cons]
      omega
    · simp [dropThroughClose, hb] at h
      exact Nat.le_succ_of_le (ih s h)

theorem removeThinkF_fuel :
    ∀ (n f : Nat) (l : List Char), l.length ≤ n → l.length ≤ f →
      removeThinkF f l = removeThink l := by
  intro n
  induction n with
  | zero =>
    intro f l h1 _
    have : l = [] := List.length_eq_zero.mp (Nat.le_zero.mp h1)
    subst this
    cases f <;> rfl
  | succ n ih =>
    intro f l h1 h2
    match f, l with
    | 0, l =>
      have : l = [] := List.length_eq_zero.mp (Nat.le_zero.mp h2)
      subst this
      rfl
    | f + 1, [] => rfl
    | f + 1, c :: rest =>
      have hrest : rest.length ≤ n := Nat.le_of_succ_le_succ (by simpa using h1)
      have hrestf : rest.length ≤ f := Nat.le_of_succ_le_succ (by simpa using h2)
      show removeThinkF (f + 1) (c :: rest) = removeThinkF (c :: rest).length (c :: rest)
      simp only [List.length_cons]
      cases hb : startsWithL openTag (c :: rest) with
      | false =>
        simp [removeThinkF, hb]
        rw [ih f rest hrest hrestf]
        rfl
      | true =>
        cases hd : dropThroughClose (rest.drop 6) with
        | none =>
          simp [removeThinkF, hb, hd]
          rw [ih f rest hrest hrestf]
          rfl
        | some suffix =>
          have hs : suffix.length ≤ rest.length :=
            Nat.le_trans (dropThroughClose_length_le _ _ hd)
              (length_drop_le' 6 rest)
          simp only [removeThinkF, hb, hd, if_true]
          rw [ih f suffix (Nat.le_trans hs hrest) (Nat.le_trans hs hrestf),
            ih rest.length suffix (Nat.le_trans hs hrest) hs]

theorem removeThink_cons_not_open (c : Char) (rest : List Char)
    (h : startsWithL openTag (c :: rest) = false) :
    removeThink (c :: rest) = c :: removeThink rest := by
  show removeThinkF (c :: rest).length (c :: rest) = _
  simp only [List.length_cons, removeThinkF, h, Bool.false_eq_true, if_false]
  rw [removeThinkF_fuel rest.length rest.length rest (Nat.le_refl _) (Nat.le_refl _)]

theorem startsWithL_self_append (p t : List Char) : startsWithL p (p ++ t) = true := by
  induction p with
  | nil => rfl
  | cons c ps ih => simp [startsWithL, ih]

theorem startsWithL_head_ne (p ps : List Char) (c : Char) (cs : List Char)
    (hp : p = '<' :: ps) (hc : c ≠ '<') : startsWithL p (c :: cs) = false := by
  subst hp
  simp [startsWithL, Ne.symm hc]

theorem dropThroughClose_at :
    ∀ (mid post : List Char), '<' ∉ mid →
      dropThroughClose (mid ++ closeTag ++ post) = some post := by
  intro mid
  induction mid with
  | nil =>
    intro post _
    show dropThroughClose ('<' :: '/' :: 't' :: 'h' :: 'i' :: 'n' :: 'k' :: '>' :: post) =
      some post
    rw [dropThroughClose]
    have hb : startsWithL closeTag
        ('<' :: '/' :: 't' :: 'h' :: 'i' :: 'n' :: 'k' :: '>' :: post) = true := by
      simp [closeTag, startsWithL]
    rw [hb]
    simp
  | cons m ms ih =>
    intro post hm
    have hmne : m ≠ '<' := by
      intro h; exact hm (by simp [h])
    have hms : '<' ∉ ms := fun h => hm (List.mem_cons_of_mem _ h)
    show dropThroughClose (m :: (ms ++ closeTag ++ post)) = some post
    rw [dropThroughClose,
      startsWithL_head_ne closeTag ['/', 't', 'h', 'i', 'n', 'k', '>'] m _ rfl hmne]
    simp only [Bool.false_eq_true, if_false]
    exact ih post hms

theorem removeThink_no_tag : ∀ (l : List Char), '<' ∉ l → removeThink l = l := by
  intro l
  induction l with
  | nil => intro _; rfl
  | cons c rest ih =>
    intro h
    have hc : c ≠ '<' := fun hcc => h (by simp [hcc])
    have hrest : '<' ∉ rest := fun hr => h (List.mem_cons_of_mem _ hr)
    rw [removeThink_cons_not_open c rest
      (startsWithL_head_ne openTag ['t', 'h', 'i', 'n', 'k', '>'] c rest rfl hc)]
    rw [ih hrest]

theorem removeThink_span :
    ∀ (pre mid post : List Char), '<' ∉ pre → '<' ∉ mid →
      removeThink (pre ++ openTag ++ mid ++ closeTag ++ post) = pre ++ removeThink post := by
  intro pre
  induction pre with
  | nil =>
    intro mid post _ hmid
    show removeThink ('<' :: ('t' :: 'h' :: 'i' :: 'n' :: 'k' :: '>' :: mid ++ closeTag ++ post)) =
      removeThink post
    have hlen : ('<' :: ('t' :: 'h' :: 'i' :: 'n' :: 'k' :: '>' :: mid ++ closeTag ++ post)).length =
        ('t' :: 'h' :: 'i' :: 'n' :: 'k' :: '>' :: mid ++ closeTag ++ post).length + 1 := by
      simp
    rw [removeThink, hlen, removeThinkF]
    have hb : startsWithL openTag
        ('<' :: ('t' :: 'h' :: 'i' :: 'n' :: 'k' :: '>' :: mid ++ closeTag ++ post)) = true := by
      simp [openTag, startsWithL]
    rw [hb]
    have hdrop : ('t' :: 'h' :: 'i' :: 'n' :: 'k' :: '>' :: mid ++ closeTag ++ post).drop 6 =
        mid ++ closeTag ++ post := by
      simp
    have hd : dropThroughClose (('t' :: 'h' :: 'i' :: 'n' :: 'k' :: '>' :: mid ++ closeTag ++ post).drop 6) =
        some post := by
      rw [hdrop]
      exact dropThroughClose_at mid post hmid
    simp only [hd, if_true]
    have hple : post.length ≤ ('t' :: 'h' :: 'i' :: 'n' :: 'k' :: '>' :: mid ++ closeTag ++ post).length := by
      simp [closeTag]
      omega
    exact removeThinkF_fuel _ _ post (Nat.le_refl _) hple
  | cons c ps ih =>
    intro mid post hpre hmid
    have hc : c ≠ '<' := fun hcc => hpre (by simp [hcc])
    have hps : '<' ∉ ps := fun hr => hpre (List.mem_cons_of_mem _ hr)
    show removeThink (c :: (ps ++ openTag ++ mid ++ closeTag ++ post)) =
      c :: (ps ++ removeThink post)
    rw [removeThink_cons_not_open c _
      (startsWithL_head_ne openTag ['t', 'h', 'i', 'n', 'k', '>'] c _ rfl hc)]
    rw [ih mid post hps hmid]

/-! Lemmas about `collapseNewlines`. -/

theorem collapseNewlinesF_fuel :
    ∀ (n f : Nat) (l : List Char), l.length ≤ n → l.length ≤ f →
      collapseNewlinesF f l = collapseNewlines l := by
  intro n
  induction n with
  | zero =>
    intro f l h1 _
    have : l = [] := List.length_eq_zero.mp (Nat.le_zero.mp h1)
    subst this
    cases f <;> rfl
  | succ n ih =>
    intro f l h1 h2
    match f, l with
    | 0, l =>
      have : l = [] := List.length_eq_zero.mp (Nat.le_zero.mp h2)
      subst this
      rfl
    | f + 1, [] => rfl
    | f + 1, c :: rest =>
      have hrest : rest.length ≤ n := Nat.le_of_succ_le_succ (by simpa using h1)
      have hrestf : rest.length ≤ f := Nat.le_of_succ_le_succ (by simpa using h2)
      show collapseNewlinesF (f + 1) (c :: rest) = collapseNewlinesF (c :: rest).length (c :: rest)
      simp only [List.length_cons]
      by_cases hc : c = '\n'
      · subst hc
        simp only [collapseNewlinesF, if_pos rfl]
        have hdl : (rest.dropWhile (fun x => x == '\n')).length ≤ rest.length :=
          length_dropWhile_le' _ _
        rw [ih f _ (Nat.le_trans hdl hrest) (Nat.le_trans hdl hrestf),
          ih rest.length _ (Nat.le_trans hdl hrest) hdl]
        simp
      · simp only [collapseNewlinesF, if_neg hc]
        rw [ih f rest hrest hrestf]
        rfl

theorem collapse_cons_nl (rest : List Char) :
    collapseNewlines ('\n' :: rest) =
      '\n' :: collapseNewlines (rest.dropWhile (fun x => x == '\n')) := by
  show collapseNewlinesF ('\n' :: rest).length ('\n' :: rest) = _
  simp only [List.length_cons, collapseNewlinesF, if_pos rfl]
  rw [collapseNewlinesF_fuel rest.length rest.length _ (length_dropWhile_le' _ _)
    (length_dropWhile_le' _ _)]
  simp

theorem collapse_cons_other (c : Char) (rest : List Char) (h : c ≠ '\n') :
    collapseNewlines (c :: rest) = c :: collapseNewlines rest := by
  show collapseNewlinesF (c :: rest).length (c :: rest) = _
  simp only [List.length_cons, collapseNewlinesF, if_neg h]
  rfl

theorem head?_dropWhile_nl :
    ∀ (l : List Char), (l.dropWhile (fun x => x == '\n')).head? ≠ some '\n' := by
  intro l
  induction l with
  | nil => simp
  | cons c rest ih =>
    by_cases hc : c = '\n'
    · subst hc
      simpa [List.dropWhile] using ih
    · have hcb : (c == '\n') = false := by simp [hc]
      simp [List.dropWhile, hcb, hc]

theorem head?_collapse (l : List Char) : (collapseNewlines l).head? = l.head? := by
  cases l with
  | nil => rfl
  | cons c rest =>
    by_cases hc : c = '\n'
    · subst hc
      rw [collapse_cons_nl]
      rfl
    · rw [collapse_cons_other c rest hc]
      rfl

theorem no_double_nl_collapse :
    ∀ (n : Nat) (l : List Char), l.length ≤ n →
      hasDoubleNL (collapseNewlines l) = false := by
  intro n
  induction n with
  | zero =>
    intro l h1
    have : l = [] := List.length_eq_zero.mp (Nat.le_zero.mp h1)
    subst this
    rfl
  | succ n ih =>
    intro l h1
    cases l with
    | nil => rfl
    | cons c rest =>
      have hrest : rest.length ≤ n := Nat.le_of_succ_le_succ (by simpa using h1)
      by_cases hc : c = '\n'
      · subst hc
        rw [collapse_cons_nl]
        have hdl : (rest.dropWhile (fun x => x == '\n')).length ≤ n :=
          Nat.le_trans (length_dropWhile_le' _ _) hrest
        have htail := ih _ hdl
        cases hC : collapseNewlines (rest.dropWhile (fun x => x == '\n')) with
        | nil => rfl
        | cons y t =>
          have hy : y ≠ '\n' := by
            intro hyy
            have hhd : (collapseNewlines (rest.dropWhile (fun x => x == '\n'))).head? =
                some '\n' := by
              rw [hC, hyy]
              rfl
            rw [head?_collapse] at hhd
            exact head?_dropWhile_nl _ hhd
          rw [hC] at htail
          simp [hasDoubleNL, hy, htail]
      · rw [collapse_cons_other c rest hc]
        have htail := ih rest hrest
        cases hC : collapseNewlines rest with
        | nil => rfl
        | cons y t =>
          rw [hC] at htail
          simp [hasDoubleNL, hc, htail]


theorem hasDD_tail (x : Char) (xs : List Char)
    (h : hasDoubleNL (x :: xs) = false) : hasDoubleNL xs = false := by
  cases xs with
  | nil => rfl
  | cons y t =>
    rw [hasDoubleNL] at h
    exact (Bool.or_eq_false_iff.mp h).2

theorem hasDD_dropWhile (p : Char → Bool) :
    ∀ (l : List Char), hasDoubleNL l = false → hasDoubleNL (l.dropWhile p) = false := by
  intro l
  induction l with
  | nil => intro _; rfl
  | cons c rest ih =>
    intro h
    cases hp : p c with
    | true =>
      simp only [List.dropWhile, hp]
      exact ih (hasDD_tail c rest h)
    | false =>
      simp only [List.dropWhile, hp]
      exact h

theorem hasDD_append_left :
    ∀ (l t : List Char), hasDoubleNL (l ++ t) = false → hasDoubleNL l = false := by
  intro l
  induction l with
  | nil => intro t _; rfl
  | cons a rest ih =>
    intro t h
    cases rest with
    | nil => rfl
    | cons b rs =>
      have h' : hasDoubleNL (a :: b :: (rs ++ t)) = false := by simpa using h
      rw [hasDoubleNL] at h'
      have hparts := Bool.or_eq_false_iff.mp h'
      have hbt : hasDoubleNL (b :: rs) = false := ih t (by simpa using hparts.2)
      rw [hasDoubleNL]
      exact Bool.or_eq_false_iff.mpr ⟨hparts.1, hbt⟩

theorem hasDD_pyStrip (l : List Char) (h : hasDoubleNL l = false) :
    hasDoubleNL (pyStrip l) = false := by
  have h1 : hasDoubleNL (l.dropWhile isPySpace) = false := hasDD_dropWhile _ _ h
  obtain ⟨t, ht⟩ := List.rdropWhile_prefix isPySpace (l.dropWhile isPySpace)
  apply hasDD_append_left (pyStrip l) t
  unfold pyStrip
  rw [ht]
  exact h1

/-! Component specifications used to settle the sanitization claim: the
behaviour of `dropWhile`/`rdropWhile` on whitespace borders, the full
stripping specification of `pyStrip`, and the maximal-newline-run law of
`collapseNewlines`. -/

theorem dropWhile_all_nil (p : Char → Bool) :
    ∀ (l : List Char), (∀ c ∈ l, p c = true) → l.dropWhile p = [] := by
  intro l
  induction l with
  | nil => intro _; rfl
  | cons c rest ih =>
    intro h
    have hc : p c = true := h c (by simp)
    simp only [List.dropWhile, hc]
    exact ih (fun x hx => h x (List.mem_cons_of_mem _ hx))

theorem all_of_dropWhile_nil (p : Char → Bool) :
    ∀ (l : List Char), l.dropWhile p = [] → ∀ c ∈ l, p c = true := by
  intro l
  induction l with
  | nil => intro _ c hc; simp at hc
  | cons x rest ih =>
    intro h c hc
    cases hx : p x with
    | false =>
      simp only [List.dropWhile, hx] at h
      exact absurd h (by simp)
    | true =>
      simp only [List.dropWhile, hx] at h
      rcases List.mem_cons.mp hc with rfl | hc'
      · exact hx
      · exact ih h c hc'

theorem dropWhile_append_all (p : Char → Bool) :
    ∀ (a z : List Char), (∀ c ∈ a, p c = true) →
      (a ++ z).dropWhile p = z.dropWhile p := by
  intro a
  induction a with
  | nil => intro z _; rfl
  | cons c rest ih =>
    intro z h
    have hc : p c = true := h c (by simp)
    show (c :: (rest ++ z)).dropWhile p = z.dropWhile p
    simp only [List.dropWhile, hc]
    exact ih z (fun x hx => h x (List.mem_cons_of_mem _ hx))

theorem dropWhile_head_not_eq (p : Char → Bool) :
    ∀ (l : List Char), (∀ c : Char, l.head? = some c → p c = false) →
      l.dropWhile p = l := by
  intro l h
  cases l with
  | nil => rfl
  | cons c rest =>
    have hc : p c = false := h c rfl
    simp only [List.dropWhile, hc]

theorem head?_dropWhile_false (p : Char → Bool) :
    ∀ (l : List Char) (c : Char), (l.dropWhile p).head? = some c → p c = false := by
  intro l
  induction l with
  | nil => intro c h; simp at h
  | cons x rest ih =>
    intro c h
    cases hx : p x with
    | true =>
      simp only [List.dropWhile, hx] at h
      exact ih c h
    | false =>
      simp only [List.dropWhile, hx] at h
      have hxc : x = c := by simpa using h
      rw [← hxc]
      exact hx

theorem dropWhile_append_of_ne_nil (p : Char → Bool) :
    ∀ (x z : List Char), x.dropWhile p ≠ [] →
      (x ++ z).dropWhile p = x.dropWhile p ++ z := by
  intro x
  induction x with
  | nil => intro z h; exact absurd rfl h
  | cons c rest ih =>
    intro z h
    cases hc : p c with
    | true =>
      simp only [List.dropWhile, hc] at h ⊢
      exact ih z h
    | false =>
      simp only [List.dropWhile, hc]
      rfl

theorem getLast?_dropWhile_eq (p : Char → Bool) (x : List Char)
    (h : x.dropWhile p ≠ []) : (x.dropWhile p).getLast? = x.getLast? := by
  obtain ⟨pre, hpre⟩ := List.dropWhile_suffix (l := x) p
  conv_rhs => rw [← hpre]
  exact (List.getLast?_append_of_ne_nil pre h).symm

theorem pyStrip_spec_lemma (a core b : List Char)
    (ha : ∀ c ∈ a, isPySpace c = true) (hb : ∀ c ∈ b, isPySpace c = true)
    (hhead : ∀ c : Char, core.head? = some c → isPySpace c = false)
    (hlast : ∀ c : Char, core.getLast? = some c → isPySpace c = false) :
    pyStrip (a ++ core ++ b) = core := by
  unfold pyStrip
  rw [List.append_assoc, dropWhile_append_all isPySpace a (core ++ b) ha]
  cases core with
  | nil =>
    simp only [List.nil_append]
    rw [dropWhile_all_nil isPySpace b hb]
    rfl
  | cons c0 rest =>
    have hc0 : isPySpace c0 = false := hhead c0 rfl
    rw [show ((c0 :: rest) ++ b).dropWhile isPySpace = (c0 :: rest) ++ b from by
      simp only [List.cons_append, List.dropWhile, hc0]
      rfl]
    unfold List.rdropWhile
    rw [List.reverse_append]
    rw [dropWhile_append_all isPySpace b.reverse (c0 :: rest).reverse
      (fun c hc => hb c (List.mem_reverse.mp hc))]
    rw [dropWhile_head_not_eq isPySpace (c0 :: rest).reverse
      (fun c hc => hlast c (by rw [← List.head?_reverse]; exact hc))]
    exact List.reverse_reverse _

theorem head?_pyStrip_false (l : List Char) (c : Char)
    (h : (pyStrip l).head? = some c) : isPySpace c = false := by
  unfold pyStrip at h
  obtain ⟨t, ht⟩ := List.rdropWhile_prefix isPySpace (l.dropWhile isPySpace)
  cases hu : (l.dropWhile isPySpace).rdropWhile isPySpace with
  | nil => rw [hu] at h; simp at h
  | cons x u' =>
    rw [hu] at h
    have hxc : x = c := by simpa using h
    have hhd : (l.dropWhile isPySpace).head? = some x := by
      rw [← ht, hu]
      rfl
    rw [← hxc]
    exact head?_dropWhile_false isPySpace l x hhd

theorem getLast?_pyStrip_false (l : List Char) (c : Char)
    (h : (pyStrip l).getLast? = some c) : isPySpace c = false := by
  unfold pyStrip List.rdropWhile at h
  rw [List.getLast?_reverse] at h
  exact head?_dropWhile_false isPySpace _ c h

theorem collapse_no_nl : ∀ (l : List Char), '\n' ∉ l → collapseNewlines l = l := by
  intro l
  induction l with
  | nil => intro _; rfl
  | cons c rest ih =>
    intro h
    have hc : c ≠ '\n' := fun hcc => h (by simp [hcc])
    rw [collapse_cons_other c rest hc, ih (fun hr => h (List.mem_cons_of_mem _ hr))]

theorem collapse_run_nil (n : Nat) (hn : 1 ≤ n) (y : List Char)
    (hy : y.head? ≠ some '\n') :
    collapseNewlines (List.replicate n '\n' ++ y) = '\n' :: collapseNewlines y := by
  obtain ⟨k, rfl⟩ : ∃ k, n = k + 1 := ⟨n - 1, (Nat.succ_pred_eq_of_pos hn).symm⟩
  rw [show List.replicate (k + 1) '\n' ++ y = '\n' :: (List.replicate k '\n' ++ y) from by
    simp [List.replicate_succ]]
  rw [collapse_cons_nl]
  congr 1
  rw [dropWhile_append_all (fun x => x == '\n') (List.replicate k '\n') y
    (fun c hc => by rw [List.eq_of_mem_replicate hc]; rfl)]
  rw [dropWhile_head_not_eq (fun x => x == '\n') y
    (fun c hc => beq_eq_false_iff_ne.mpr (fun hcn => hy (hcn ▸ hc)))]

theorem collapse_run_le :
    ∀ (m : Nat) (x : List Char), x.length ≤ m → x.getLast? ≠ some '\n' →
      ∀ (n : Nat), 1 ≤ n → ∀ (y : List Char), y.head? ≠ some '\n' →
        collapseNewlines (x ++ List.replicate n '\n' ++ y) =
          collapseNewlines x ++ '\n' :: collapseNewlines y := by
  intro m
  induction m with
  | zero =>
    intro x hx hxl n hn y hy
    have hx0 : x = [] := List.length_eq_zero.mp (Nat.le_zero.mp hx)
    subst hx0
    rw [show ([] : List Char) ++ List.replicate n '\n' ++ y =
      List.replicate n '\n' ++ y from by simp]
    rw [collapse_run_nil n hn y hy]
    rfl
  | succ m ih =>
    intro x hx hxl n hn y hy
    cases x with
    | nil =>
      rw [show ([] : List Char) ++ List.replicate n '\n' ++ y =
        List.replicate n '\n' ++ y from by simp]
      rw [collapse_run_nil n hn y hy]
      rfl
    | cons c x' =>
      by_cases hc : c = '\n'
      · subst hc
        cases x' with
        | nil => exact absurd rfl hxl
        | cons c2 x'' =>
          have hxl' : (c2 :: x'').getLast? ≠ some '\n' := by
            rwa [show ('\n' :: c2 :: x'').getLast? = (c2 :: x'').getLast? from rfl] at hxl
          have hdne : (c2 :: x'').dropWhile (fun ch => ch == '\n') ≠ [] := by
            intro hnil
            have hall := all_of_dropWhile_nil (fun ch => ch == '\n') (c2 :: x'') hnil
            cases hg : (c2 :: x'').getLast? with
            | none => exact absurd hg (by simp)
            | some cl =>
              have hmem : cl ∈ c2 :: x'' := List.mem_of_mem_getLast? hg
              have hcl : cl = '\n' := by simpa using hall cl hmem
              exact hxl' (hcl ▸ hg)
          have hlen : ((c2 :: x'').dropWhile (fun ch => ch == '\n')).length ≤ m := by
            have h1 := length_dropWhile_le' (fun ch => ch == '\n') (c2 :: x'')
            have h2 : (c2 :: x'').length ≤ m := by simpa using Nat.le_of_succ_le_succ hx
            exact Nat.le_trans h1 h2
          have hdlast : ((c2 :: x'').dropWhile (fun ch => ch == '\n')).getLast? ≠
              some '\n' := by
            rw [getLast?_dropWhile_eq _ _ hdne]
            exact hxl'
          show collapseNewlines
              ('\n' :: ((c2 :: x'') ++ List.replicate n '\n' ++ y)) = _
          rw [collapse_cons_nl]
          rw [show (c2 :: x'') ++ List.replicate n '\n' ++ y =
            (c2 :: x'') ++ (List.replicate n '\n' ++ y) from by simp]
          rw [dropWhile_append_of_ne_nil (fun ch => ch == '\n') (c2 :: x'')
            (List.replicate n '\n' ++ y) hdne]
          rw [show (c2 :: x'').dropWhile (fun ch => ch == '\n') ++
              (List.replicate n '\n' ++ y) =
            (c2 :: x'').dropWhile (fun ch => ch == '\n') ++
              List.replicate n '\n' ++ y from by simp]
          rw [ih ((c2 :: x'').dropWhile (fun ch => ch == '\n')) hlen hdlast n hn y hy]
          rw [show collapseNewlines ('\n' :: c2 :: x'') =
            '\n' :: collapseNewlines ((c2 :: x'').dropWhile (fun ch => ch == '\n')) from
            collapse_cons_nl (c2 :: x'')]
          simp
      · have hxl' : x'.getLast? ≠ some '\n' := by
          cases x' with
          | nil => simp
          | cons a t =>
            rwa [show (c :: a :: t).getLast? = (a :: t).getLast? from rfl] at hxl
        have hlen : x'.length ≤ m := by simpa using Nat.le_of_succ_le_succ hx
        rw [show (c :: x') ++ List.replicate n '\n' ++ y =
          c :: (x' ++ List.replicate n '\n' ++ y) from by simp]
        rw [collapse_cons_other c _ hc]
        rw [ih x' hlen hxl' n hn y hy]
        rw [collapse_cons_other c x' hc]
        simp

/-! ### Lemmas about the small-step system -/

theorem lt_of_getElem?_some {l : List PTask} {r : Nat} {t : PTask}
    (h : l[r]? = some t) : r < l.length := by
  have h2 := List.getElem?_eq_some.mp h
  exact h2.1

/-- Run-delivery soundness invariant: every run id in `spoken` belongs to a
task whose status is `completed`. -/
def SpokenOK (s : Sys) : Prop :=
  ∀ r, r ∈ s.spoken → (s.tasks[r]?).map PTask.status = some TStatus.completed

theorem spokenOK_mono (s s' : Sys) (hsp : s'.spoken = s.spoken)
    (hst : ∀ r : Nat, (s'.tasks[r]?).map PTask.status = (s.tasks[r]?).map PTask.status)
    (h : SpokenOK s) : SpokenOK s' := by
  intro r hr
  rw [hsp] at hr
  rw [hst r]
  exact h r hr

theorem spokenOK_init : SpokenOK initSys := by
  intro r hr
  simp [initSys] at hr

theorem cancel_processing_spoken (s : Sys) : (cancel_processing s).spoken = s.spoken := by
  unfold cancel_processing
  cases hpt : s.processingTask with
  | none => rfl
  | some k =>
    show (cancel_task s k).spoken = s.spoken
    unfold cancel_task
    cases hk : s.tasks[k]? with
    | none => rfl
    | some tk => rfl

theorem cancel_processing_status (s : Sys) (r : Nat) :
    ((cancel_processing s).tasks[r]?).map PTask.status =
      (s.tasks[r]?).map PTask.status := by
  unfold cancel_processing
  cases hpt : s.processingTask with
  | none => rfl
  | some k =>
    show ((cancel_task s k).tasks[r]?).map PTask.status = _
    unfold cancel_task
    cases hk : s.tasks[k]? with
    | none => rfl
    | some tk =>
      show ((s.tasks.set k { tk with mustCancel := true })[r]?).map PTask.status = _
      by_cases hrk : k = r
      · subst hrk
        rw [List.getElem?_set_self (lt_of_getElem?_some hk), hk]
        rfl
      · rw [List.getElem?_set_ne hrk]

theorem startRec_spoken (s : Sys) : (startRec s).spoken = s.spoken := by
  unfold startRec
  split <;> rfl

theorem startRec_status (s : Sys) (r : Nat) :
    ((startRec s).tasks[r]?).map PTask.status = (s.tasks[r]?).map PTask.status := by
  unfold startRec
  split <;> rfl

theorem step_down_spoken (s : Sys) : (step s Act.down).spoken = s.spoken := by
  simp only [step]
  split
  · rfl
  · rw [startRec_spoken, cancel_processing_spoken]

theorem step_down_status (s : Sys) (r : Nat) :
    ((step s Act.down).tasks[r]?).map PTask.status =
      (s.tasks[r]?).map PTask.status := by
  simp only [step]
  split
  · rfl
  · rw [startRec_status, cancel_processing_status]

theorem spokenOK_step (s : Sys) (a : Act) (h : SpokenOK s) : SpokenOK (step s a) := by
  cases a with
  | down =>
    exact spokenOK_mono s _ (step_down_spoken s) (step_down_status s) h
  | up =>
    simp only [step]
    split
    · exact spokenOK_mono s _ rfl (fun r => rfl) h
    · exact h
  | mkTask tid =>
    simp only [step]
    split
    · intro r hr
      have hold := h r hr
      cases hk : s.tasks[r]? with
      | none => rw [hk] at hold; exact absurd hold (by simp)
      | some t =>
        show ((s.tasks ++ [⟨TPos.created, false, TStatus.running⟩])[r]?).map PTask.status = _
        rw [List.getElem?_append_left (lt_of_getElem?_some hk), hk]
        rw [hk] at hold
        exact hold
    · exact h
  | adv k =>
    simp only [step, advTask]
    cases hk : s.tasks[k]? with
    | none => exact h
    | some tk =>
      show SpokenOK (advRun s k tk)
      unfold advRun
      cases hst : tk.status with
      | cancelled => exact h
      | completed => exact h
      | running =>
        have hkspoken : k ∉ s.spoken := by
          intro hmem
          have hc := h k hmem
          rw [hk] at hc
          have hc2 : tk.status = TStatus.completed := Option.some.inj hc
          rw [hst] at hc2
          exact TStatus.noConfusion hc2
        have hset : ∀ (t' : PTask) (r : Nat), r ∈ s.spoken →
            ((s.tasks.set k t')[r]?).map PTask.status = some TStatus.completed := by
          intro t' r hr
          have hrk : k ≠ r := fun hkr => hkspoken (hkr ▸ hr)
          rw [List.getElem?_set_ne hrk]
          exact h r hr
        cases hpos : tk.pos with
        | created =>
          cases hmc : tk.mustCancel with
          | true =>
            intro r hr
            exact hset _ r hr
          | false =>
            intro r hr
            exact hset _ r hr
        | awaitT1 =>
          cases hmc : tk.mustCancel with
          | true =>
            intro r hr
            exact hset _ r hr
          | false =>
            intro r hr
            exact hset _ r hr
        | midSeg1 =>
          intro r hr
          exact hset _ r hr
        | awaitT2 =>
          cases hmc : tk.mustCancel with
          | true =>
            intro r hr
            exact hset _ r hr
          | false =>
            intro r hr
            rcases List.mem_append.mp hr with hr' | hr'
            · exact hset _ r hr'
            · have hreq : r = k := by simpa using hr'
              subst hreq
              show ((s.tasks.set r
                  { pos := TPos.awaitT2, mustCancel := false,
                    status := TStatus.completed })[r]?).map PTask.status =
                some TStatus.completed
              rw [List.getElem?_set_self (lt_of_getElem?_some hk)]
              rfl

theorem spokenOK_runFrom (s : Sys) (acts : List Act) (h : SpokenOK s) :
    SpokenOK (runFrom s acts) := by
  induction acts generalizing s with
  | nil => exact h
  | cons a rest ih => exact ih (step s a) (spokenOK_step s a h)

theorem spokenOK_runSys (acts : List Act) : SpokenOK (runSys acts) :=
  spokenOK_runFrom initSys acts spokenOK_init

theorem cancel_processing_of_none (s : Sys) (hpt : s.processingTask = none) :
    cancel_processing s = { s with speaking := false } := by
  unfold cancel_processing
  rw [hpt]

theorem cancel_processing_of_some_some (s : Sys) (k : Nat) (t : PTask)
    (hpt : s.processingTask = some k) (hk : s.tasks[k]? = some t) :
    cancel_processing s =
      { s with speaking := false,
               tasks := s.tasks.set k { t with mustCancel := true },
               is_processing := false } := by
  unfold cancel_processing
  rw [hpt]
  show cancel_task s k = _
  unfold cancel_task
  rw [hk]
  simp [hpt]

theorem cancel_processing_of_some_none (s : Sys) (k : Nat)
    (hpt : s.processingTask = some k) (hk : s.tasks[k]? = none) :
    cancel_processing s = { s with speaking := false, is_processing := false } := by
  unfold cancel_processing
  rw [hpt]
  show cancel_task s k = _
  unfold cancel_task
  rw [hk]
  simp [hpt]

theorem cancel_processing_proj (s : Sys) :
    (cancel_processing s).ctrl_pressed = s.ctrl_pressed
    ∧ (cancel_processing s).startCalls = s.startCalls
    ∧ (cancel_processing s).cancelCalls = s.cancelCalls
    ∧ (cancel_processing s).recording = s.recording
    ∧ (cancel_processing s).speaking = false := by
  unfold cancel_processing
  cases hpt : s.processingTask with
  | none => exact ⟨rfl, rfl, rfl, rfl, rfl⟩
  | some k =>
    show (cancel_task s k).ctrl_pressed = s.ctrl_pressed
      ∧ (cancel_task s k).startCalls = s.startCalls
      ∧ (cancel_task s k).cancelCalls = s.cancelCalls
      ∧ (cancel_task s k).recording = s.recording
      ∧ (cancel_task s k).speaking = false
    unfold cancel_task
    cases hk : s.tasks[k]? with
    | none => exact ⟨rfl, rfl, rfl, rfl, rfl⟩
    | some t => exact ⟨rfl, rfl, rfl, rfl, rfl⟩

theorem startRec_proj (s : Sys) :
    (startRec s).ctrl_pressed = s.ctrl_pressed
    ∧ (startRec s).startCalls = s.startCalls + 1
    ∧ (startRec s).cancelCalls = s.cancelCalls
    ∧ (startRec s).recording = true
    ∧ (startRec s).speaking = s.speaking
    ∧ (startRec s).tasks = s.tasks
    ∧ (startRec s).is_processing = s.is_processing := by
  unfold startRec
  by_cases hrec : s.recording = true
  · rw [if_pos hrec]
    exact ⟨rfl, rfl, rfl, hrec, rfl, rfl, rfl⟩
  · rw [if_neg hrec]
    exact ⟨rfl, rfl, rfl, rfl, rfl, rfl, rfl⟩

theorem step_down_eq (s : Sys) (h : s.ctrl_pressed = false) :
    step s Act.down = startRec (cancel_processing
      { s with ctrl_pressed := true, cancelCalls := s.cancelCalls + 1 }) := by
  simp [step, h]

theorem step_preserves_counters (s : Sys) (a : Act) (hc : s.ctrl_pressed = true)
    (ha : a ≠ Act.up) :
    (step s a).ctrl_pressed = true ∧ (step s a).startCalls = s.startCalls
    ∧ (step s a).cancelCalls = s.cancelCalls := by
  cases a with
  | down => simp [step, hc]
  | up => exact absurd rfl ha
  | mkTask tid =>
    simp only [step]
    split
    · exact ⟨hc, rfl, rfl⟩
    · exact ⟨hc, rfl, rfl⟩
  | adv r =>
    simp only [step, advTask]
    cases hk : s.tasks[r]? with
    | none => exact ⟨hc, rfl, rfl⟩
    | some t =>
      show (advRun s r t).ctrl_pressed = true ∧ (advRun s r t).startCalls = s.startCalls
        ∧ (advRun s r t).cancelCalls = s.cancelCalls
      unfold advRun
      cases hst : t.status with
      | cancelled => exact ⟨hc, rfl, rfl⟩
      | completed => exact ⟨hc, rfl, rfl⟩
      | running =>
        cases hpos : t.pos with
        | created => cases hmc : t.mustCancel <;> exact ⟨hc, rfl, rfl⟩
        | awaitT1 => cases hmc : t.mustCancel <;> exact ⟨hc, rfl, rfl⟩
        | midSeg1 => exact ⟨hc, rfl, rfl⟩
        | awaitT2 => cases hmc : t.mustCancel <;> exact ⟨hc, rfl, rfl⟩

theorem runFrom_counters (acts : List Act) :
    ∀ s : Sys, s.ctrl_pressed = true → Act.up ∉ acts →
      (runFrom s acts).startCalls = s.startCalls
      ∧ (runFrom s acts).cancelCalls = s.cancelCalls := by
  induction acts with
  | nil => intro s _ _; exact ⟨rfl, rfl⟩
  | cons a rest ih =>
    intro s h hup
    have ha : a ≠ Act.up := fun hh => hup (by simp [hh])
    have hstep := step_preserves_counters s a h ha
    have hrest := ih (step s a) hstep.1 (fun hh => hup (List.mem_cons_of_mem _ hh))
    show (runFrom (step s a) rest).startCalls = s.startCalls
      ∧ (runFrom (step s a) rest).cancelCalls = s.cancelCalls
    rw [hrest.1, hrest.2, hstep.2.1, hstep.2.2]
    exact ⟨rfl, rfl⟩

/-! ### Claim theorems: the concurrency core -/

/-- Claim C1, counterexample.  Trace: press/release (spawning thread 0,
whose transcription is slow), press/release again (spawning thread 1; the
second press finds `processing_task = None`, so its cancel is a no-op),
thread 0 then registers task 0, thread 1 registers task 1, and task 0 runs to
completion.  After the first six actions run 1 has been launched (two tasks
exist) and nothing was spoken; after the full trace the final text of run 0
is handed to `tts.start_speaking` (`spoken = [0]`) even though the newer run
1 was launched after run 0 — there is no run id check to stop it. -/
theorem C1_counterexample :
    (runSys [Act.down, Act.up, Act.down, Act.up, Act.mkTask 0, Act.mkTask 1]).tasks.length = 2
    ∧ (runSys [Act.down, Act.up, Act.down, Act.up, Act.mkTask 0, Act.mkTask 1]).spoken = []
    ∧ (runSys [Act.down, Act.up, Act.down, Act.up, Act.mkTask 0, Act.mkTask 1,
        Act.adv 0, Act.adv 0, Act.adv 0, Act.adv 0]).spoken = [0]
    ∧ (runSys [Act.down, Act.up, Act.down, Act.up, Act.mkTask 0, Act.mkTask 1,
        Act.adv 0, Act.adv 0, Act.adv 0, Act.adv 0]).tasks =
      [⟨TPos.awaitT2, false, TStatus.completed⟩, ⟨TPos.created, false, TStatus.running⟩] := by
  refine ⟨?_, ?_, ?_, ?_⟩ <;> decide

/-- Claim C1, amended: a run whose asyncio task was actually cancelled never
hands its result to `tts.start_speaking`; but launching a newer run does not
by itself prevent an older, still-running run from delivering — there is no
monotonic run id, only cancellation of the single task registered in
`processing_task` at trigger-down. -/
theorem C1_amended (acts : List Act) (r : Nat) (t : PTask)
    (hlook : (runSys acts).tasks[r]? = some t) (hc : t.status = TStatus.cancelled) :
    r ∉ (runSys acts).spoken := by
  intro hmem
  have h := spokenOK_runSys acts r hmem
  rw [hlook] at h
  have h2 : t.status = TStatus.completed := Option.some.inj h
  rw [hc] at h2
  exact TStatus.noConfusion h2

/-- Claim C1, witness: in the trace press/release, task 0 registered,
press again (cancelling task 0), resume — task 0 is cancelled and its run id
never reaches the spoken log. -/
theorem C1_witness :
    0 ∉ (runSys [Act.down, Act.up, Act.mkTask 0, Act.down, Act.adv 0]).spoken :=
  C1_amended [Act.down, Act.up, Act.mkTask 0, Act.down, Act.adv 0] 0
    ⟨TPos.created, true, TStatus.cancelled⟩ (by decide) rfl

/-- Claim C3, counterexample.  Trace: press/release, task 0 registered, two
resumes (the BN→EN translation runs, then the inference runs), then a fresh
trigger-down sets the task's cancel flag *during/after the inference*; at
that point the stage log has no target-translation entry and `mustCancel` is
set, yet the next resume still starts the EN→BN translation (logs `t2Call`)
— the stage does not check the token before starting — and only the resume
after that turns the task to `cancelled`. -/
theorem C3_counterexample :
    (runSys [Act.down, Act.up, Act.mkTask 0, Act.adv 0, Act.adv 0, Act.down]).tasks =
      [⟨TPos.midSeg1, true, TStatus.running⟩]
    ∧ (0, StageCall.t2Call) ∉
        (runSys [Act.down, Act.up, Act.mkTask 0, Act.adv 0, Act.adv 0, Act.down]).calls
    ∧ (0, StageCall.t2Call) ∈
        (runSys [Act.down, Act.up, Act.mkTask 0, Act.adv 0, Act.adv 0, Act.down,
          Act.adv 0, Act.adv 0]).calls
    ∧ (runSys [Act.down, Act.up, Act.mkTask 0, Act.adv 0, Act.adv 0, Act.down,
          Act.adv 0, Act.adv 0]).tasks = [⟨TPos.awaitT2, true, TStatus.cancelled⟩] := by
  refine ⟨?_, ?_, ?_, ?_⟩ <;> decide

/-- Claim C3, amended: cancellation is delivered at the task's resume points
only.  A cancel pending before the task's first resume stops the run before
the pivot translation starts; a cancel pending at the resume after the pivot
translation stops the run before the inference starts; but from the
straight-line point after the inference the target translation is started
unconditionally — there is no check between the inference and the final
translation (and the transcription stage runs before the task exists, so it
is never guarded). -/
theorem C3_amended :
    (∀ (s : Sys) (r : Nat) (t : PTask), t.status = TStatus.running →
        t.pos = TPos.created → t.mustCancel = true →
        advRun s r t =
          { s with tasks := s.tasks.set r { t with status := TStatus.cancelled } })
    ∧ (∀ (s : Sys) (r : Nat) (t : PTask), t.status = TStatus.running →
        t.pos = TPos.awaitT1 → t.mustCancel = true →
        advRun s r t =
          { s with tasks := s.tasks.set r { t with status := TStatus.cancelled },
                   is_processing := false })
    ∧ (∀ (s : Sys) (r : Nat) (t : PTask), t.status = TStatus.running →
        t.pos = TPos.midSeg1 →
        advRun s r t =
          { s with tasks := s.tasks.set r { t with pos := TPos.awaitT2 },
                   calls := s.calls ++ [(r, StageCall.t2Call)] }) := by
  refine ⟨?_, ?_, ?_⟩
  · intro s r t h1 h2 h3
    unfold advRun
    rw [h1, h2, h3]
    try rfl
  · intro s r t h1 h2 h3
    unfold advRun
    rw [h1, h2, h3]
    try rfl
  · intro s r t h1 h2
    unfold advRun
    rw [h1, h2]
    try rfl

/-- Claim C3, witness: concrete one-step instances — a pending cancel at a
running task's first resume cancels without logging a stage, and from
`midSeg1` the target translation is logged even though `mustCancel` is set. -/
theorem C3_witness :
    (advRun initSys 0 ⟨TPos.midSeg1, true, TStatus.running⟩).calls =
      [(0, StageCall.t2Call)]
    ∧ advRun initSys 0 ⟨TPos.created, true, TStatus.running⟩ = initSys := by
  constructor
  · rw [C3_amended.2.2 initSys 0 ⟨TPos.midSeg1, true, TStatus.running⟩ rfl rfl]
    rfl
  · rw [C3_amended.1 initSys 0 ⟨TPos.created, true, TStatus.running⟩ rfl rfl rfl]
    rfl

/-- Claim C4: on every fresh trigger-down (`ctrl_pressed` previously false),
whatever the rest of the prior state, the handler counts one
`cancel_processing` call and one `start_recording` call, the speech output is
interrupted (`speaking = false` afterwards), the registered pipeline task (if
any) has its cancel flag set and `is_processing` cleared, and the recorder is
left recording.  In the code (main.py lines 227-234) `cancel_processing()`
runs strictly before `start_recording()`. -/
theorem C4_theorem (s : Sys) (h : s.ctrl_pressed = false) :
    (step s Act.down).ctrl_pressed = true
    ∧ (step s Act.down).cancelCalls = s.cancelCalls + 1
    ∧ (step s Act.down).startCalls = s.startCalls + 1
    ∧ (step s Act.down).speaking = false
    ∧ (step s Act.down).recording = true
    ∧ (∀ (k : Nat) (t : PTask), s.processingTask = some k → s.tasks[k]? = some t →
        (step s Act.down).tasks[k]? = some { t with mustCancel := true }
        ∧ (step s Act.down).is_processing = false) := by
  rw [step_down_eq s h]
  refine ⟨?_, ?_, ?_, ?_, ?_, ?_⟩
  · rw [(startRec_proj _).1, (cancel_processing_proj _).1]
  · rw [(startRec_proj _).2.2.1, (cancel_processing_proj _).2.2.1]
  · rw [(startRec_proj _).2.1, (cancel_processing_proj _).2.1]
  · rw [(startRec_proj _).2.2.2.2.1, (cancel_processing_proj _).2.2.2.2]
  · exact (startRec_proj _).2.2.2.1
  · intro k t hpt hk
    rw [cancel_processing_of_some_some
      { s with ctrl_pressed := true, cancelCalls := s.cancelCalls + 1 } k t hpt hk]
    constructor
    · rw [(startRec_proj _).2.2.2.2.2.1]
      show (s.tasks.set k { t with mustCancel := true })[k]? = _
      rw [List.getElem?_set_self (lt_of_getElem?_some hk)]
    · rw [(startRec_proj _).2.2.2.2.2.2]

/-- Claim C4, witness: a concrete state with a registered running task,
active speech and `ctrl_pressed = false`. -/
theorem C4_witness :
    (step { initSys with
              processingTask := some 0,
              tasks := [⟨TPos.awaitT1, false, TStatus.running⟩],
              speaking := true,
              is_processing := true } Act.down).speaking = false
    ∧ (step { initSys with
                processingTask := some 0,
                tasks := [⟨TPos.awaitT1, false, TStatus.running⟩],
                speaking := true,
                is_processing := true } Act.down).recording = true
    ∧ (step { initSys with
                processingTask := some 0,
                tasks := [⟨TPos.awaitT1, false, TStatus.running⟩],
                speaking := true,
                is_processing := true } Act.down).tasks[0]? =
      some ⟨TPos.awaitT1, true, TStatus.running⟩
    ∧ (step { initSys with
                processingTask := some 0,
                tasks := [⟨TPos.awaitT1, false, TStatus.running⟩],
                speaking := true,
                is_processing := true } Act.down).is_processing = false := by
  have h := C4_theorem { initSys with
      processingTask := some 0,
      tasks := [⟨TPos.awaitT1, false, TStatus.running⟩],
      speaking := true,
      is_processing := true } rfl
  have h6 := h.2.2.2.2.2 0 ⟨TPos.awaitT1, false, TStatus.running⟩ rfl rfl
  exact ⟨h.2.2.2.1, h.2.2.2.2.1, h6.1, h6.2⟩

/-- Claim C7: duplicate trigger-down events while `ctrl_pressed` is already
true are ignored.  Starting from a trigger-down on a released controller,
along any continuation that contains no trigger-up (arbitrary repeats of the
held key, thread and task activity), `start_recording` and
`cancel_processing` are each called exactly once. -/
theorem C7_theorem (s : Sys) (acts : List Act) (h : s.ctrl_pressed = false)
    (hup : Act.up ∉ acts) :
    (runFrom s (Act.down :: acts)).startCalls = s.startCalls + 1
    ∧ (runFrom s (Act.down :: acts)).cancelCalls = s.cancelCalls + 1 := by
  have hd := step_down_eq s h
  have hctrl : (step s Act.down).ctrl_pressed = true := by
    rw [hd, (startRec_proj _).1, (cancel_processing_proj _).1]
  have hsc : (step s Act.down).startCalls = s.startCalls + 1 := by
    rw [hd, (startRec_proj _).2.1, (cancel_processing_proj _).2.1]
  have hcc : (step s Act.down).cancelCalls = s.cancelCalls + 1 := by
    rw [hd, (startRec_proj _).2.2.1, (cancel_processing_proj _).2.2.1]
  have hrun := runFrom_counters acts (step s Act.down) hctrl hup
  show (runFrom (step s Act.down) acts).startCalls = s.startCalls + 1
    ∧ (runFrom (step s Act.down) acts).cancelCalls = s.cancelCalls + 1
  rw [hrun.1, hrun.2, hsc, hcc]
  exact ⟨rfl, rfl⟩

/-- Claim C7, witness: three consecutive trigger-downs (a held-key repeat)
produce exactly one `start_recording` call and one `cancel_processing`
call. -/
theorem C7_witness :
    (runFrom initSys [Act.down, Act.down, Act.down]).startCalls = 1
    ∧ (runFrom initSys [Act.down, Act.down, Act.down]).cancelCalls = 1 := by
  have h := C7_theorem initSys [Act.down, Act.down] rfl (by decide)
  exact ⟨h.1, h.2⟩

/-! ### Claim theorems: sanitization -/

/-- Claim C2, counterexample.  On the input `" a\n\n\nb"` (no reasoning
markers at all) the code produces `"a\nb"`: the leading space — text outside
any tagged span — is not preserved (`.strip()`), and the two blank lines are
not collapsed to one blank line but to none (`\n{2,}` → a single newline).
The claim instead requires the output `" a\n\nb"`. -/
theorem C2_counterexample :
    sanitize (" a\n\n\nb".toList) = "a\nb".toList
    ∧ "a\nb".toList ≠ " a\n\nb".toList := by
  refine ⟨?_, ?_⟩ <;> decide

/-- Claim C2, amended: sanitization removes every well-formed
`<think>...</think>` span (leftmost, shortest match, contents including
newlines discarded, surrounding text kept) and leaves marker-free text
unchanged under the span-removal pass; it collapses every maximal run of
newline characters (in particular every run of 2 or more) to exactly one
newline while leaving newline-free text unchanged under the collapse pass,
so the output never contains two consecutive newlines; and it strips exactly
the leading and trailing whitespace — `pyStrip` returns the whitespace-free
core unchanged, and the sanitized output never starts or ends with
whitespace. -/
theorem C2_amended :
    (∀ pre mid post : List Char, '<' ∉ pre → '<' ∉ mid →
        removeThink (pre ++ openTag ++ mid ++ closeTag ++ post) = pre ++ removeThink post)
    ∧ (∀ l : List Char, '<' ∉ l → removeThink l = l)
    ∧ (∀ (x : List Char) (n : Nat) (y : List Char), x.getLast? ≠ some '\n' → 1 ≤ n →
        y.head? ≠ some '\n' →
        collapseNewlines (x ++ List.replicate n '\n' ++ y) =
          collapseNewlines x ++ '\n' :: collapseNewlines y)
    ∧ (∀ l : List Char, '\n' ∉ l → collapseNewlines l = l)
    ∧ (∀ a core b : List Char, (∀ c ∈ a, isPySpace c = true) →
        (∀ c ∈ b, isPySpace c = true) →
        (∀ c : Char, core.head? = some c → isPySpace c = false) →
        (∀ c : Char, core.getLast? = some c → isPySpace c = false) →
        pyStrip (a ++ core ++ b) = core)
    ∧ (∀ (l : List Char) (c : Char),
        ((sanitize l).head? = some c → isPySpace c = false)
        ∧ ((sanitize l).getLast? = some c → isPySpace c = false))
    ∧ (∀ l : List Char, hasDoubleNL (sanitize l) = false) := by
  refine ⟨removeThink_span, removeThink_no_tag,
    fun x n y hx hn hy => collapse_run_le x.length x (Nat.le_refl _) hx n hn y hy,
    collapse_no_nl, pyStrip_spec_lemma,
    fun l c => by
      unfold sanitize
      exact ⟨head?_pyStrip_false _ c, getLast?_pyStrip_false _ c⟩,
    ?_⟩
  intro l
  unfold sanitize
  apply hasDD_pyStrip
  exact no_double_nl_collapse (pyStrip (removeThink l)).length _ (Nat.le_refl _)

/-- Claim C2, witness: a concrete multi-line reasoning span is removed with
the surrounding text kept; a concrete three-newline run bounded by
non-newlines collapses to one newline; a concrete whitespace-bracketed core
is returned exactly by the strip; and a concrete sanitized output has no
double newline. -/
theorem C2_witness :
    removeThink ("ab".toList ++ openTag ++ "x\ny".toList ++ closeTag ++ "cd".toList) =
      "ab".toList ++ "cd".toList
    ∧ collapseNewlines ("a".toList ++ List.replicate 3 '\n' ++ "b".toList) =
        collapseNewlines ("a".toList) ++ '\n' :: collapseNewlines ("b".toList)
    ∧ pyStrip (" ".toList ++ "a b".toList ++ "\t".toList) = "a b".toList
    ∧ hasDoubleNL (sanitize ("p\n\n\nq".toList)) = false := by
  refine ⟨?_, ?_, ?_, C2_amended.2.2.2.2.2.2 ("p\n\n\nq".toList)⟩
  · rw [C2_amended.1 ("ab".toList) ("x\ny".toList) ("cd".toList) (by decide) (by decide)]
    rw [C2_amended.2.1 ("cd".toList) (by decide)]
  · exact C2_amended.2.2.1 ("a".toList) 3 ("b".toList) (by decide) (by decide) (by decide)
  · exact C2_amended.2.2.2.2.1 (" ".toList) ("a b".toList) ("\t".toList)
      (by decide) (by decide)
      (fun c hc => by
        have h2 : c = 'a' := (Option.some.inj hc).symm
        rw [h2]
        decide)
      (fun c hc => by
        have h2 : c = 'b' := (Option.some.inj hc).symm
        rw [h2]
        decide)

/-! ### Claim theorems: the voice recorder -/

theorem record_chunks_frames :
    ∀ (cs : List (List Nat)) (f : List (List Nat)) (r w : Option Nat),
      VoiceRecorder.record_chunks ⟨true, f, r, w⟩ cs = ⟨true, f ++ cs, r, w⟩ := by
  intro cs
  induction cs with
  | nil => intro f r w; simp [VoiceRecorder.record_chunks]
  | cons c rest ih =>
    intro f r w
    show VoiceRecorder.record_chunks (VoiceRecorder.record_chunk ⟨true, f, r, w⟩ c) rest =
      ⟨true, f ++ (c :: rest), r, w⟩
    have hchunk : VoiceRecorder.record_chunk ⟨true, f, r, w⟩ c = ⟨true, f ++ [c], r, w⟩ := rfl
    rw [hchunk, ih (f ++ [c]) r w]
    simp

/-- Claim C5, counterexample.  After a start / two chunks / stop session, a
`get_audio_data` call returns the blob but leaves `frames` untouched (the
spec-modelled `collectSpec` clears them), so a second call returns the same
blob again — the session is not cleared and the chunks are reused. -/
theorem C5_counterexample :
    (VoiceRecorder.collect_code (VoiceRecorder.stop_recording
        (VoiceRecorder.record_chunks (VoiceRecorder.start_recording (some (8, 2)) initRecorder)
          [[1], [2]]))).2.frames = [[1], [2]]
    ∧ (VoiceRecorder.collectSpec (VoiceRecorder.stop_recording
        (VoiceRecorder.record_chunks (VoiceRecorder.start_recording (some (8, 2)) initRecorder)
          [[1], [2]]))).2.frames = []
    ∧ VoiceRecorder.get_audio_data ((VoiceRecorder.collect_code (VoiceRecorder.stop_recording
        (VoiceRecorder.record_chunks (VoiceRecorder.start_recording (some (8, 2)) initRecorder)
          [[1], [2]]))).2) = some ⟨[1, 2], some 8, some 2⟩ := by
  refine ⟨?_, ?_, ?_⟩ <;> decide

/-- Claim C5, amended: over a start / chunks / stop session,
`get_audio_data` returns `none` iff zero chunks were appended since the
`start_recording`, otherwise the in-order concatenation of all chunks — but
it does not clear the session: the frames persist (they are discarded only by
the next `start_recording`). -/
theorem C5_amended (s : VoiceRecorder) (rate width : Nat) (cs : List (List Nat))
    (h : s.recording = false) :
    (VoiceRecorder.get_audio_data (VoiceRecorder.stop_recording
        (VoiceRecorder.record_chunks (VoiceRecorder.start_recording (some (rate, width)) s) cs)) =
        none ↔ cs = [])
    ∧ (cs ≠ [] →
        VoiceRecorder.get_audio_data (VoiceRecorder.stop_recording
          (VoiceRecorder.record_chunks (VoiceRecorder.start_recording (some (rate, width)) s) cs)) =
          some ⟨cs.flatten, some rate, some width⟩)
    ∧ (VoiceRecorder.stop_recording
        (VoiceRecorder.record_chunks (VoiceRecorder.start_recording (some (rate, width)) s) cs)).frames =
      cs := by
  have hstart : VoiceRecorder.start_recording (some (rate, width)) s =
      ⟨true, [], some rate, some width⟩ := by
    unfold VoiceRecorder.start_recording
    rw [if_neg (by simp [h])]
  rw [hstart, record_chunks_frames cs [] (some rate) (some width)]
  simp only [List.nil_append]
  refine ⟨?_, ?_, rfl⟩
  · unfold VoiceRecorder.stop_recording VoiceRecorder.get_audio_data
    by_cases hcs : cs = []
    · simp [hcs]
    · simp [hcs]
  · intro hcs
    unfold VoiceRecorder.stop_recording VoiceRecorder.get_audio_data
    simp [hcs]

/-- Claim C5, witness: a concrete two-chunk session. -/
theorem C5_witness :
    (VoiceRecorder.get_audio_data (VoiceRecorder.stop_recording
        (VoiceRecorder.record_chunks (VoiceRecorder.start_recording (some (8, 2)) initRecorder)
          [[3], [4, 5]])) = none ↔ ([[3], [4, 5]] : List (List Nat)) = [])
    ∧ VoiceRecorder.get_audio_data (VoiceRecorder.stop_recording
        (VoiceRecorder.record_chunks (VoiceRecorder.start_recording (some (8, 2)) initRecorder)
          [[3], [4, 5]])) = some ⟨[3, 4, 5], some 8, some 2⟩ := by
  have h := C5_amended initRecorder 8 2 [[3], [4, 5]] rfl
  exact ⟨h.1, h.2.1 (by decide)⟩

/-- Claim C6, counterexample.  Calling `start_recording` on a recorder that
is already recording silently returns with the state unchanged — no
`AlreadyRecording` failure is surfaced, unlike the spec-modelled `startSpec`
which fails. -/
theorem C6_counterexample :
    VoiceRecorder.start_recording (some (16, 2)) ⟨true, [[5]], some 8, some 2⟩ =
      ⟨true, [[5]], some 8, some 2⟩
    ∧ VoiceRecorder.startSpec (some (16, 2)) ⟨true, [[5]], some 8, some 2⟩ =
      Except.error VoiceRecorder.StartErr.alreadyRecording :=
  ⟨rfl, rfl⟩

/-- Claim C6, amended: `start_recording` is a silent no-op (state unchanged,
no error value) when a session is already recording; when opening the input
device fails the exception is caught (reported only on the console) and the
recorder is left with `recording = false` and an empty frame list. -/
theorem C6_amended (d : Option (Nat × Nat)) (s : VoiceRecorder) :
    (s.recording = true → VoiceRecorder.start_recording d s = s)
    ∧ (s.recording = false →
        (VoiceRecorder.start_recording none s).recording = false
        ∧ (VoiceRecorder.start_recording none s).frames = []) := by
  constructor
  · intro h
    unfold VoiceRecorder.start_recording
    rw [if_pos h]
  · intro h
    unfold VoiceRecorder.start_recording
    rw [if_neg (by simp [h])]
    exact ⟨rfl, rfl⟩

/-- Claim C6, witness: a concrete already-recording state and a concrete
device failure from idle. -/
theorem C6_witness :
    VoiceRecorder.start_recording (some (16, 2)) ⟨true, [[7]], none, none⟩ =
      ⟨true, [[7]], none, none⟩
    ∧ (VoiceRecorder.start_recording none initRecorder).recording = false := by
  have h1 := (C6_amended (some (16, 2)) ⟨true, [[7]], none, none⟩).1 rfl
  have h2 := (C6_amended none initRecorder).2 rfl
  exact ⟨h1, h2.1⟩

/-- Claim C10: whenever the background capture loop `_record_audio` exits —
because `stop_recording` cleared the flag, or because reading a chunk (or
entering the microphone context) raised — the recorder's `recording` flag is
false afterwards (the `finally` clause), so the recorder never remains in
the recording state once chunk appending has ceased. -/
theorem C10_theorem :
    ∀ (evs : List VoiceRecorder.RecEvent) (s s' : VoiceRecorder),
      VoiceRecorder.record_audio s evs = some s' → s'.recording = false := by
  intro evs
  induction evs with
  | nil =>
    intro s s' h
    unfold VoiceRecorder.record_audio at h
    cases hb : s.recording with
    | true =>
      rw [hb] at h
      simp at h
    | false =>
      rw [hb] at h
      simp at h
      rw [← h]
      exact hb
  | cons e rest ih =>
    intro s s' h
    unfold VoiceRecorder.record_audio at h
    cases hb : s.recording with
    | false =>
      rw [hb] at h
      simp at h
      rw [← h]
      exact hb
    | true =>
      rw [hb] at h
      simp only [if_true] at h
      cases e with
      | chunk b => exact ih _ s' h
      | chunkErr =>
        simp at h
        rw [← h]
      | stopReq => exact ih _ s' h

/-- Claim C10, witness: a concrete loop run ended by a `stop_recording`
request. -/
theorem C10_witness : (VoiceRecorder.mk false [] none none).recording = false :=
  C10_theorem [VoiceRecorder.RecEvent.stopReq] (VoiceRecorder.mk true [] none none)
    (VoiceRecorder.mk false [] none none) rfl

/-! ### Claim theorems: speech output and the pipeline body -/

/-- Claim C8: `AgriTTS.stop` is idempotent — stopping twice leaves exactly
the state of stopping once; it is a no-op when the session is already stopped
(`is_speaking = false`); and when a session is playing it stops the player. -/
theorem C8_theorem (t : AgriTTS) :
    AgriTTS.stop (AgriTTS.stop t) = AgriTTS.stop t
    ∧ (t.is_speaking = false → AgriTTS.stop t = t)
    ∧ (∀ p : Player, t.is_speaking = true → t.player = some p →
        (AgriTTS.stop t).player = some { p with stopped := true }) := by
  obtain ⟨sp, pl⟩ := t
  refine ⟨?_, ?_, ?_⟩
  · cases sp <;> cases pl <;> rfl
  · intro h
    simp only at h
    subst h
    cases pl <;> rfl
  · intro p hsp hpl
    simp only at hsp hpl
    subst hsp
    subst hpl
    rfl

/-- Claim C8, witness: a concrete playing session and a concrete stopped
session. -/
theorem C8_witness :
    AgriTTS.stop (AgriTTS.stop ⟨true, some ⟨false⟩⟩) = AgriTTS.stop ⟨true, some ⟨false⟩⟩
    ∧ (AgriTTS.stop ⟨true, some ⟨false⟩⟩).player = some ⟨true⟩
    ∧ AgriTTS.stop ⟨false, some ⟨false⟩⟩ = ⟨false, some ⟨false⟩⟩ :=
  ⟨(C8_theorem ⟨true, some ⟨false⟩⟩).1,
   (C8_theorem ⟨true, some ⟨false⟩⟩).2.2 ⟨false⟩ rfl rfl,
   (C8_theorem ⟨false, some ⟨false⟩⟩).2.1 rfl⟩

/-- Claim C9: `AgriBot.ask` sets `is_processing` on entry and the `finally`
clause guarantees `is_processing` is false on termination — on the success
path and on every error path (any stage's exception, including a
`CancelledError` raised at an await). -/
theorem C9_theorem (translate1 infer translate2 : String → Except String String)
    (prompt : String) (b : AgriBotState) :
    (AgriBotState.ask translate1 infer translate2 prompt b).1.is_processing = false
    ∧ (ask_entry b).is_processing = true := by
  constructor
  · cases h1 : translate1 prompt with
    | error e => simp [AgriBotState.ask, h1]
    | ok en_prompt =>
      cases h2 : infer en_prompt with
      | error e => simp [AgriBotState.ask, h1, h2]
      | ok en_ai_result =>
        cases h3 : translate2 (String.mk (sanitize en_ai_result.data)) with
        | error e => simp [AgriBotState.ask, h1, h2, h3]
        | ok bn => simp [AgriBotState.ask, h1, h2, h3]
  · rfl
